import Mathlib

/-!
# Verification of the playlist-converter normalization pipeline

Shallow embedding of `spotify_converter.py`. Python strings are modelled as
`List Char` (a Python `str` is a sequence of code points). Each `re.sub`
call in the source is embedded as a scan that, at every position, consults a
pattern matcher returning the length of the (leftmost, per the regex's own
semantics) match starting there; matched segments are removed (all the
source's replacements are the empty string except the whitespace collapse,
which is embedded separately). Fallible code (the unguarded `split()[0]`
in `should_add_artist`, which can raise `IndexError`) is embedded with
`Option` / `Except`.

The whitespace class is modelled as the six ASCII whitespace characters
matched by Python's `\s`, `str.strip` and `str.split` (the full Unicode
whitespace set is not needed for any input considered here).
-/

/-- The six ASCII characters of Python's whitespace class (`\s`, `str.strip`,
`str.split`): space, tab, newline, carriage return, vertical tab, form feed. -/
def isPySpace (c : Char) : Bool :=
  c = ' ' || c = '\t' || c = '\n' || c = '\r' || c = Char.ofNat 11 || c = Char.ofNat 12

/-- Python `str.lower`, restricted to ASCII (all inputs of interest). -/
def pyToLower (c : Char) : Char := c.toLower

/-- Python `str.strip()`: drop leading and trailing whitespace. -/
def pyStrip (l : List Char) : List Char :=
  ((l.dropWhile isPySpace).reverse.dropWhile isPySpace).reverse

/-- Python `re.sub(r'\s+', ' ', ·)`: every maximal run of whitespace becomes
one space (the run's last character emits the space). -/
def subSpaces : List Char → List Char
  | [] => []
  | c :: cs =>
    if isPySpace c then
      match cs with
      | [] => [' ']
      | d :: _ => if isPySpace d then subSpaces cs else ' ' :: subSpaces cs
    else c :: subSpaces cs

/-- Python `str.split()` (no argument): whitespace-delimited words, empties
dropped. -/
def pySplit : List Char → List (List Char)
  | [] => []
  | c :: cs =>
    if isPySpace c then pySplit cs
    else
      match cs with
      | [] => [[c]]
      | d :: _ =>
        if isPySpace d then [c] :: pySplit cs
        else
          match pySplit cs with
          | [] => [[c]]          -- unreachable: a non-space head yields a word
          | w :: rest => (c :: w) :: rest

/-- Python `str.split(sep, 1)` when `sep` occurs: the parts before and after
the first occurrence of `sep`; `none` when `sep` does not occur. -/
def pySplitOnce (sep : List Char) : List Char → Option (List Char × List Char)
  | [] => none
  | c :: cs =>
    if sep.isPrefixOf (c :: cs) then some ([], (c :: cs).drop sep.length)
    else (pySplitOnce sep cs).map (fun p => (c :: p.1, p.2))

/-- Case-insensitive literal match: if mapping `pyToLower` over a prefix of
`l` yields `pat` (given in lowercase), return the rest of `l`. -/
def ciStrip : List Char → List Char → Option (List Char)
  | [], l => some l
  | _ :: _, [] => none
  | p :: ps, c :: cs => if pyToLower c = p then ciStrip ps cs else none

/-- Length through the first `target` character, scanning left to right and
failing at a newline first (regex `.` does not match `\n`). -/
def closeLen (target : Char) : List Char → Option Nat
  | [] => none
  | c :: cs =>
    if c = target then some 1
    else if c = '\n' then none
    else (closeLen target cs).map (· + 1)

/-- Matcher for `\(PAT.*?\)` with `re.IGNORECASE` (`PAT` a literal such as
`feat\.`): an opening paren, the literal, then lazily the first close paren
with no intervening newline. -/
def matchParen (pat : List Char) (l : List Char) : Option Nat :=
  match l with
  | [] => none
  | c :: rest =>
    if c = '(' then
      match ciStrip pat rest with
      | some rest2 => (closeLen ')' rest2).map (fun k => 1 + pat.length + k)
      | none => none
    else none

/-- Scan for `KW.*?\)` reachable through `.*?` (so not across a newline):
at each position try the keyword; on a keyword hit whose close-paren search
fails, the lazy `.*?` backtracks past it, which is the recursive call. -/
def findKwClose (kw : List Char) : List Char → Option Nat
  | [] => none
  | c :: cs =>
    match ciStrip kw (c :: cs) with
    | some rest =>
      match closeLen ')' rest with
      | some k => some (kw.length + k)
      | none => if c = '\n' then none else (findKwClose kw cs).map (· + 1)
    | none => if c = '\n' then none else (findKwClose kw cs).map (· + 1)

/-- Matcher for `\(.*?KW.*?\)` with `re.IGNORECASE`. -/
def matchKw (kw : List Char) (l : List Char) : Option Nat :=
  match l with
  | [] => none
  | c :: rest => if c = '(' then (findKwClose kw rest).map (· + 1) else none

/-- Matcher for `\[.*?\]`. -/
def matchBracket (l : List Char) : Option Nat :=
  match l with
  | [] => none
  | c :: rest => if c = '[' then (closeLen ']' rest).map (· + 1) else none

/-- One `re.sub(pattern, '', ·)` pass, fuelled (fuel = remaining length
suffices): at each position consult the matcher; drop a match and resume
after it, otherwise keep the character and move one position right. -/
def reSubF (m : List Char → Option Nat) : Nat → List Char → List Char
  | 0, l => l
  | _ + 1, [] => []
  | f + 1, c :: cs =>
    match m (c :: cs) with
    | some (k + 1) => reSubF m f (cs.drop k)
    | _ => c :: reSubF m f cs

/-- `re.sub(pattern, '', s)` for a pattern embedded as matcher `m`. -/
def reSub (m : List Char → Option Nat) (l : List Char) : List Char :=
  reSubF m l.length l

/-- `clean_title` from the source: seven removal passes in source order,
then whitespace collapse and strip. -/
def clean_title (title : List Char) : List Char :=
  let t1 := reSub (matchParen "feat.".data) title
  let t2 := reSub (matchParen "ft.".data) t1
  let t3 := reSub (matchParen "with".data) t2
  let t4 := reSub (matchKw "remix".data) t3
  let t5 := reSub (matchKw "version".data) t4
  let t6 := reSub (matchKw "edit".data) t5
  let t7 := reSub matchBracket t6
  pyStrip (subSpaces t7)

/-- Semantics of `.*$` from a position: `.` stops at a newline and `$`
matches at the end of the string or just before a final newline, so the
match runs to the end (no newline in the rest) or to just before a final
newline (no other newline in the rest); otherwise the pattern fails here. -/
def dotStarDollar (t : List Char) : Option Nat :=
  if t.contains '\n' = false then some t.length
  else if t.getLast? = some '\n' && ((t.drop 0).dropLast.contains '\n') = false then
    some (t.length - 1)
  else none

/-- Semantics of `\s*.*$` from a position: `\s*` may also cross newlines, so
newlines inside the leading whitespace run are additionally allowed. -/
def wsDotStarDollar (t : List Char) : Option Nat :=
  let M := (t.takeWhile isPySpace).length
  if (t.drop M).contains '\n' = false then some t.length
  else if t.getLast? = some '\n' && ((t.drop M).dropLast.contains '\n') = false then
    some (t.length - 1)
  else none

/-- Matcher for `\s*[,&]\s*.*$`: the leading `\s*` must consume exactly the
whitespace run (the next literal is not whitespace). -/
def matchSepTail (l : List Char) : Option Nat :=
  let n := (l.takeWhile isPySpace).length
  match l.drop n with
  | c :: rest =>
    if c = ',' || c = '&' then (wsDotStarDollar rest).map (fun k => n + 1 + k) else none
  | [] => none

/-- Matcher for `\s*LIT.*$` with `re.IGNORECASE` (`LIT` = `feat\.` or
`ft\.`). -/
def matchLitTail (lit : List Char) (l : List Char) : Option Nat :=
  let n := (l.takeWhile isPySpace).length
  match ciStrip lit (l.drop n) with
  | some rest => (dotStarDollar rest).map (fun k => n + lit.length + k)
  | none => none

/-- `clean_artist` from the source: truncate at `,`/`&`, then at `feat.`,
then at `ft.`, then strip. -/
def clean_artist (artist : List Char) : List Char :=
  let a1 := reSub matchSepTail artist
  let a2 := reSub (matchLitTail "feat.".data) a1
  let a3 := reSub (matchLitTail "ft.".data) a2
  pyStrip a3

/-- Python's substring test `pat in l`: `pat` occurs contiguously in `l`. -/
def hasSub (pat : List Char) : List Char → Bool
  | [] => pat.isEmpty
  | c :: cs => pat.isPrefixOf (c :: cs) || hasSub pat cs

/-- `should_add_artist` from the source. `none` embeds the uncaught
`IndexError` of `artist_lower.split()[0]` on an empty word list. -/
def should_add_artist (artist title : List Char) : Option Bool :=
  if artist = [] || artist = "Unknown Artist".data then some false
  else
    let artist_lower := artist.map pyToLower
    let title_lower := title.map pyToLower
    if hasSub artist_lower title_lower then some false
    else
      match pySplit artist_lower with
      | [] => none
      | w :: _ =>
        if w.length > 2 && hasSub w title_lower then some false else some true

/-- A playlist entry as appended by the adapters:
`{'artist': ..., 'title': ..., 'search': ...}`. -/
structure Song where
  artist : List Char
  title : List Char
  search : List Char
deriving DecidableEq, Repr

/-- Python `artist_name or 'Unknown Artist'` (an empty string is falsy). -/
def orUnknown (a : List Char) : List Char :=
  if a = [] then "Unknown Artist".data else a

/-- One row of `process_csv_export`, given the values of the `Track Name`
and `Artist Name(s)` columns (a missing column reads as `""`).
`ok none` = row skipped (empty track name); `error` = uncaught exception,
which aborts the whole run in the source. -/
def csvRow (trackField artistField : List Char) : Except Unit (Option Song) :=
  let track_name := pyStrip trackField
  let artist_name := pyStrip artistField
  if track_name = [] then .ok none
  else if artist_name ≠ [] then
    let artist_name := clean_artist artist_name
    let track_name := clean_title track_name
    match should_add_artist artist_name track_name with
    | none => .error ()
    | some b =>
      let search_term := if b then artist_name ++ ' ' :: track_name else track_name
      .ok (some ⟨orUnknown artist_name, track_name, search_term⟩)
  else
    let track_name := clean_title track_name
    .ok (some ⟨orUnknown [], track_name, track_name⟩)

/-- One line of `process_text_list`. `ok none` = line skipped (empty after
strip, or a `#` comment); `error` = uncaught exception. -/
def textLine (rawLine : List Char) : Except Unit (Option Song) :=
  let line := pyStrip rawLine
  if line = [] || line.head? = some '#' then .ok none
  else
    match pySplitOnce " - ".data line with
    | some (p0, p1) =>
      let artist_name := clean_artist (pyStrip p0)
      let track_name := clean_title (pyStrip p1)
      match should_add_artist artist_name track_name with
      | none => .error ()
      | some b =>
        let search_term := if b then artist_name ++ ' ' :: track_name else track_name
        .ok (some ⟨orUnknown artist_name, track_name, search_term⟩)
    | none =>
      let track_name := clean_title line
      .ok (some ⟨orUnknown [], track_name, track_name⟩)

/-- One prompt answer of `interactive_input`. `ok none` = loop ends (empty
input or `q`); `error` = uncaught exception. -/
def interactiveLine (rawLine : List Char) : Except Unit (Option Song) :=
  let song_input := pyStrip rawLine
  if song_input = [] || song_input.map pyToLower = ['q'] then .ok none
  else
    match pySplitOnce " - ".data song_input with
    | some (p0, p1) =>
      let artist_name := clean_artist (pyStrip p0)
      let track_name := clean_title (pyStrip p1)
      match should_add_artist artist_name track_name with
      | none => .error ()
      | some b =>
        let search_term := if b then artist_name ++ ' ' :: track_name else track_name
        .ok (some ⟨orUnknown artist_name, track_name, search_term⟩)
    | none =>
      let track_name := clean_title song_input
      .ok (some ⟨orUnknown [], track_name, track_name⟩)

/-- `process_text_list` over the lines of the file: skipped lines produce
nothing, produced songs keep input order, an exception aborts the run. -/
def process_text_list : List (List Char) → Except Unit (List Song)
  | [] => .ok []
  | l :: ls =>
    match textLine l with
    | .error _ => .error ()
    | .ok none => process_text_list ls
    | .ok (some s) => (process_text_list ls).map (s :: ·)

/-- `process_csv_export` over the parsed rows (pairs of the two column
values). -/
def process_csv_export : List (List Char × List Char) → Except Unit (List Song)
  | [] => .ok []
  | r :: rs =>
    match csvRow r.1 r.2 with
    | .error _ => .error ()
    | .ok none => process_csv_export rs
    | .ok (some s) => (process_csv_export rs).map (s :: ·)

/-- `interactive_input` over the typed lines: an empty/`q` line breaks the
loop, discarding the remaining input. -/
def interactive_input : List (List Char) → Except Unit (List Song)
  | [] => .ok []
  | l :: ls =>
    match interactiveLine l with
    | .error _ => .error ()
    | .ok none => .ok []
    | .ok (some s) => (interactive_input ls).map (s :: ·)

/-- `generate_youtube_searches` from the source. -/
def generate_youtube_searches (songs : List Song) (search_quality : List Char) :
    List (List Char) :=
  songs.map (fun song =>
    let search_query :=
      if search_quality = "best".data then song.search ++ " official audio".data
      else if search_quality = "fast".data then song.search
      else song.search ++ " official".data
    "ytsearch1:".data ++ search_query)

/-!
## Specification-side definitions

Independent formulations of the spec's descriptions, to be compared with
the source translations above: a leftmost-match splice engine, index-based
pattern matchers, a fold-based whitespace collapse, and a first-word
extractor. They are used on the specification side of refinement claims.
-/

/-- Position and length of the leftmost match of `m` in `l`. -/
def firstMatch (m : List Char → Option Nat) : List Char → Option (Nat × Nat)
  | [] => none
  | c :: cs =>
    match m (c :: cs) with
    | some n => some (0, n)
    | none => (firstMatch m cs).map (fun p => (p.1 + 1, p.2))

/-- Remove every match of `m`: repeatedly splice out the leftmost match and
continue after it (fuel = length suffices). -/
def spliceAllF (m : List Char → Option Nat) : Nat → List Char → List Char
  | 0, l => l
  | f + 1, l =>
    match firstMatch m l with
    | none => l
    | some (i, n) => l.take i ++ spliceAllF m f (l.drop (i + n))

/-- Remove every match of `m` from `l`, leftmost first. -/
def spliceAll (m : List Char → Option Nat) (l : List Char) : List Char :=
  spliceAllF m l.length l

/-- Index-based close search: one past the first occurrence of `target`,
provided no newline precedes it. -/
def closeIdxSpec (target : Char) (s : List Char) : Option Nat :=
  match s.findIdx? (fun c => c = target || c = '\n') with
  | some i => if s[i]? = some target then some (i + 1) else none
  | none => none

/-- Spec-side matcher for a parenthetical opened by a case-insensitive
literal: `(`, the literal, then up to the first `)` (no newline inside). -/
def matchParenSpec (pat : List Char) (l : List Char) : Option Nat :=
  match l with
  | [] => none
  | c :: rest =>
    if c = '(' ∧ (rest.take pat.length).map pyToLower = pat then
      (closeIdxSpec ')' (rest.drop pat.length)).map (fun k => 1 + pat.length + k)
    else none

/-- Spec-side core for the keyword patterns: the keyword (case-insensitive)
at this position, then up to the first `)` (no newline inside). -/
def kwCoreSpec (kw : List Char) (t : List Char) : Option Nat :=
  if (t.take kw.length).map pyToLower = kw then
    (closeIdxSpec ')' (t.drop kw.length)).map (fun k => kw.length + k)
  else none

/-- Spec-side matcher for a parenthetical containing a keyword: `(`, then
the earliest keyword occurrence reachable without crossing a newline, then
up to the first `)` after it. -/
def matchKwSpec (kw : List Char) (l : List Char) : Option Nat :=
  match l with
  | [] => none
  | c :: rest =>
    if c = '(' then
      (firstMatch (kwCoreSpec kw) (rest.takeWhile (fun d => !(d = '\n')))).map
        (fun p => p.1 + p.2 + 1)
    else none

/-- Spec-side matcher for a bracketed segment: `[` up to the first `]`
(no newline inside). -/
def matchBracketSpec (l : List Char) : Option Nat :=
  match l with
  | [] => none
  | c :: rest => if c = '[' then (closeIdxSpec ']' rest).map (· + 1) else none

/-- Spec-side whitespace collapse, as a right fold: a whitespace character
merges into a following collapsed space, otherwise becomes one space. -/
def collapseFold (l : List Char) : List Char :=
  l.foldr
    (fun c acc =>
      if isPySpace c then
        match acc with
        | [] => [' ']
        | a :: t => if a = ' ' then a :: t else ' ' :: a :: t
      else c :: acc)
    []

/-- The spec's title cleaner: the seven removal rules in the listed order,
each applied to every (leftmost-first) match, then whitespace collapse and
trim. -/
def clean_title_spec (title : List Char) : List Char :=
  let t1 := spliceAll (matchParenSpec "feat.".data) title
  let t2 := spliceAll (matchParenSpec "ft.".data) t1
  let t3 := spliceAll (matchParenSpec "with".data) t2
  let t4 := spliceAll (matchKwSpec "remix".data) t3
  let t5 := spliceAll (matchKwSpec "version".data) t4
  let t6 := spliceAll (matchKwSpec "edit".data) t5
  let t7 := spliceAll matchBracketSpec t6
  pyStrip (collapseFold t7)

/-- The spec's "first whitespace-delimited word": drop leading whitespace,
then take up to the next whitespace; `none` when nothing remains. -/
def firstWordSpec (l : List Char) : Option (List Char) :=
  let d := l.dropWhile isPySpace
  if d = [] then none else some (d.takeWhile (fun c => !(isPySpace c)))

/-!
## Helper lemmas
-/

/-- Inversion for a produced CSV-row song, as field equations. -/
lemma csvRow_inv {t a : List Char} {s : Song} (h : csvRow t a = .ok (some s)) :
    (pyStrip a ≠ [] ∧ pyStrip t ≠ [] ∧
      ∃ b, should_add_artist (clean_artist (pyStrip a)) (clean_title (pyStrip t)) = some b ∧
        s.artist = orUnknown (clean_artist (pyStrip a)) ∧
        s.title = clean_title (pyStrip t) ∧
        s.search = (if b then clean_artist (pyStrip a) ++ ' ' :: clean_title (pyStrip t)
                    else clean_title (pyStrip t))) ∨
    (pyStrip a = [] ∧ pyStrip t ≠ [] ∧
      s.artist = orUnknown [] ∧ s.title = clean_title (pyStrip t) ∧
      s.search = clean_title (pyStrip t)) := by
  obtain ⟨sa, st, ss⟩ := s
  simp only [csvRow] at h
  split at h
  · exact absurd h (by simp)
  · split at h
    · rename_i ht ha
      split at h
      · exact absurd h (by simp)
      · rename_i b hb
        simp only [Except.ok.injEq, Option.some.injEq, Song.mk.injEq] at h
        exact Or.inl ⟨ha, ht, b, hb, h.1.symm, h.2.1.symm, h.2.2.symm⟩
    · rename_i ht ha
      simp only [Except.ok.injEq, Option.some.injEq, Song.mk.injEq] at h
      exact Or.inr ⟨by simpa using ha, ht, h.1.symm, h.2.1.symm, h.2.2.symm⟩

/-- Inversion for a produced text-file song, as field equations. -/
lemma textLine_inv {line : List Char} {s : Song} (h : textLine line = .ok (some s)) :
    (∃ p0 p1 b, pySplitOnce " - ".data (pyStrip line) = some (p0, p1) ∧
      should_add_artist (clean_artist (pyStrip p0)) (clean_title (pyStrip p1)) = some b ∧
      s.artist = orUnknown (clean_artist (pyStrip p0)) ∧
      s.title = clean_title (pyStrip p1) ∧
      s.search = (if b then clean_artist (pyStrip p0) ++ ' ' :: clean_title (pyStrip p1)
                  else clean_title (pyStrip p1))) ∨
    (pySplitOnce " - ".data (pyStrip line) = none ∧
      s.artist = orUnknown [] ∧ s.title = clean_title (pyStrip line) ∧
      s.search = clean_title (pyStrip line)) := by
  obtain ⟨sa, st, ss⟩ := s
  simp only [textLine] at h
  split at h
  · exact absurd h (by simp)
  · split at h
    · rename_i p0 p1 hsp
      split at h
      · exact absurd h (by simp)
      · rename_i b hb
        simp only [Except.ok.injEq, Option.some.injEq, Song.mk.injEq] at h
        exact Or.inl ⟨p0, p1, b, hsp, hb, h.1.symm, h.2.1.symm, h.2.2.symm⟩
    · rename_i hsp
      simp only [Except.ok.injEq, Option.some.injEq, Song.mk.injEq] at h
      exact Or.inr ⟨hsp, h.1.symm, h.2.1.symm, h.2.2.symm⟩

/-- Inversion for a produced interactive-mode song, as field equations. -/
lemma interactiveLine_inv {line : List Char} {s : Song}
    (h : interactiveLine line = .ok (some s)) :
    (∃ p0 p1 b, pySplitOnce " - ".data (pyStrip line) = some (p0, p1) ∧
      should_add_artist (clean_artist (pyStrip p0)) (clean_title (pyStrip p1)) = some b ∧
      s.artist = orUnknown (clean_artist (pyStrip p0)) ∧
      s.title = clean_title (pyStrip p1) ∧
      s.search = (if b then clean_artist (pyStrip p0) ++ ' ' :: clean_title (pyStrip p1)
                  else clean_title (pyStrip p1))) ∨
    (pySplitOnce " - ".data (pyStrip line) = none ∧
      s.artist = orUnknown [] ∧ s.title = clean_title (pyStrip line) ∧
      s.search = clean_title (pyStrip line)) := by
  obtain ⟨sa, st, ss⟩ := s
  simp only [interactiveLine] at h
  split at h
  · exact absurd h (by simp)
  · split at h
    · rename_i p0 p1 hsp
      split at h
      · exact absurd h (by simp)
      · rename_i b hb
        simp only [Except.ok.injEq, Option.some.injEq, Song.mk.injEq] at h
        exact Or.inl ⟨p0, p1, b, hsp, hb, h.1.symm, h.2.1.symm, h.2.2.symm⟩
    · rename_i hsp
      simp only [Except.ok.injEq, Option.some.injEq, Song.mk.injEq] at h
      exact Or.inr ⟨hsp, h.1.symm, h.2.1.symm, h.2.2.symm⟩

/-!
## Claims
-/

/-- Claim C6: for every title, `should_add_artist` on the empty artist
returns `False` without raising — the falsy-artist guard fires before the
first-word lookup, so the empty-split indexing is unreachable. -/
theorem C6_empty_artist_guard (title : List Char) :
    should_add_artist [] title = some false := by
  simp [should_add_artist]

/-- Claim C10: a text line that strips to empty or starts with `#` after
stripping produces no song entry and leaves the processing of the remaining
lines unchanged. -/
theorem C10_comment_blank_skipped (line : List Char) (ls : List (List Char))
    (h : pyStrip line = [] ∨ (pyStrip line).head? = some '#') :
    process_text_list (line :: ls) = process_text_list ls := by
  have hskip : textLine line = .ok none := by
    simp only [textLine]
    rcases h with h | h <;> simp [h]
  simp [process_text_list, hskip]

/-- Witness for C10 at the comment line `"# intro"` and a following song. -/
theorem C10_witness :
    process_text_list ["# intro".data, "Song".data] = process_text_list ["Song".data] :=
  C10_comment_blank_skipped "# intro".data ["Song".data] (Or.inr rfl)

/-- Claim C9: every produced entry has a non-empty artist field; an empty
cleaned/parsed artist is stored as the sentinel `"Unknown Artist"`. -/
theorem C9_artist_never_empty :
    (∀ t a s, csvRow t a = .ok (some s) →
      s.artist ≠ [] ∧ ((pyStrip a = [] ∨ clean_artist (pyStrip a) = []) →
        s.artist = "Unknown Artist".data)) ∧
    (∀ line s, textLine line = .ok (some s) →
      s.artist ≠ [] ∧
      (pySplitOnce " - ".data (pyStrip line) = none → s.artist = "Unknown Artist".data) ∧
      (∀ p0 p1, pySplitOnce " - ".data (pyStrip line) = some (p0, p1) →
        clean_artist (pyStrip p0) = [] → s.artist = "Unknown Artist".data)) ∧
    (∀ line s, interactiveLine line = .ok (some s) →
      s.artist ≠ [] ∧
      (pySplitOnce " - ".data (pyStrip line) = none → s.artist = "Unknown Artist".data) ∧
      (∀ p0 p1, pySplitOnce " - ".data (pyStrip line) = some (p0, p1) →
        clean_artist (pyStrip p0) = [] → s.artist = "Unknown Artist".data)) := by
  refine ⟨?_, ?_, ?_⟩
  · intro t a s h
    rcases csvRow_inv h with ⟨ha, _, b, _, hart, _, _⟩ | ⟨ha, _, hart, _, _⟩
    · constructor
      · rw [hart, orUnknown]
        split
        · decide
        · assumption
      · rintro (h' | h')
        · exact absurd h' ha
        · rw [hart, h']; decide
    · refine ⟨?_, fun _ => ?_⟩ <;> rw [hart] <;> decide
  · intro line s h
    rcases textLine_inv h with ⟨p0, p1, b, hsp, _, hart, _, _⟩ | ⟨hsp, hart, _, _⟩
    · refine ⟨?_, ?_, ?_⟩
      · rw [hart, orUnknown]
        split
        · decide
        · assumption
      · intro h'; rw [h'] at hsp; cases hsp
      · intro q0 q1 hq hempty
        rw [hq] at hsp
        simp only [Option.some.injEq, Prod.mk.injEq] at hsp
        obtain ⟨rfl, rfl⟩ := hsp
        rw [hart, hempty]; decide
    · refine ⟨by rw [hart]; decide, fun _ => by rw [hart]; decide, ?_⟩
      intro q0 q1 hq
      rw [hq] at hsp; cases hsp
  · intro line s h
    rcases interactiveLine_inv h with ⟨p0, p1, b, hsp, _, hart, _, _⟩ | ⟨hsp, hart, _, _⟩
    · refine ⟨?_, ?_, ?_⟩
      · rw [hart, orUnknown]
        split
        · decide
        · assumption
      · intro h'; rw [h'] at hsp; cases hsp
      · intro q0 q1 hq hempty
        rw [hq] at hsp
        simp only [Option.some.injEq, Prod.mk.injEq] at hsp
        obtain ⟨rfl, rfl⟩ := hsp
        rw [hart, hempty]; decide
    · refine ⟨by rw [hart]; decide, fun _ => by rw [hart]; decide, ?_⟩
      intro q0 q1 hq
      rw [hq] at hsp; cases hsp

/-- Witness for C9: a bare-title text line yields the sentinel artist. -/
theorem C9_witness :
    (⟨"Unknown Artist".data, "Song".data, "Song".data⟩ : Song).artist ≠ [] :=
  (C9_artist_never_empty.2.1 "Song".data ⟨"Unknown Artist".data, "Song".data, "Song".data⟩
    rfl).1

/-- Claim C7: `generate_youtube_searches` emits exactly one directive per
song, in input order: `"ytsearch1:"` then the song's search value, suffixed
by `" official audio"` for `best`, nothing for `fast`, `" official"`
otherwise. -/
theorem C7_search_directives (songs : List Song) (q : List Char) :
    (generate_youtube_searches songs q).length = songs.length ∧
    ∀ (i : Nat) (h : i < songs.length),
      (generate_youtube_searches songs q)[i]? =
        some ("ytsearch1:".data ++ (songs.get ⟨i, h⟩).search ++
          (if q = "best".data then " official audio".data
           else if q = "fast".data then []
           else " official".data)) := by
  constructor
  · simp [generate_youtube_searches]
  · intro i h
    simp only [generate_youtube_searches, List.getElem?_map,
      List.getElem?_eq_getElem h, Option.map_some', Option.some.injEq]
    split
    · simp [List.get_eq_getElem, List.append_assoc]
    · split <;> simp [List.get_eq_getElem, List.append_assoc]

/-- Witness for C7 on a one-song playlist in `fast` mode. -/
theorem C7_witness :
    (generate_youtube_searches [⟨"a".data, "b".data, "a b".data⟩] "fast".data)[0]? =
      some ("ytsearch1:".data ++
        (([⟨"a".data, "b".data, "a b".data⟩] : List Song).get ⟨0, by decide⟩).search ++
        (if "fast".data = "best".data then " official audio".data
         else if "fast".data = "fast".data then []
         else " official".data)) :=
  (C7_search_directives [⟨"a".data, "b".data, "a b".data⟩] "fast".data).2 0 (by decide)

/-- Claim C1: for any of the three adapters, an entry produced from a
non-empty (stripped) raw artist carries `search` = cleaned artist, a
space and the cleaned title when the duplication guard answers `True`, and
the cleaned title alone otherwise — in particular an empty cleaned title
yields whatever this rule produces (possibly the empty string), with no
fallback. -/
theorem C1_search_assembly :
    (∀ t a s, pyStrip a ≠ [] → csvRow t a = .ok (some s) →
      s.search =
        if should_add_artist (clean_artist (pyStrip a)) (clean_title (pyStrip t))
            = some true
        then clean_artist (pyStrip a) ++ ' ' :: clean_title (pyStrip t)
        else clean_title (pyStrip t)) ∧
    (∀ line p0 p1 s, pySplitOnce " - ".data (pyStrip line) = some (p0, p1) →
      pyStrip p0 ≠ [] → textLine line = .ok (some s) →
      s.search =
        if should_add_artist (clean_artist (pyStrip p0)) (clean_title (pyStrip p1))
            = some true
        then clean_artist (pyStrip p0) ++ ' ' :: clean_title (pyStrip p1)
        else clean_title (pyStrip p1)) ∧
    (∀ line p0 p1 s, pySplitOnce " - ".data (pyStrip line) = some (p0, p1) →
      pyStrip p0 ≠ [] → interactiveLine line = .ok (some s) →
      s.search =
        if should_add_artist (clean_artist (pyStrip p0)) (clean_title (pyStrip p1))
            = some true
        then clean_artist (pyStrip p0) ++ ' ' :: clean_title (pyStrip p1)
        else clean_title (pyStrip p1)) := by
  refine ⟨?_, ?_, ?_⟩
  · intro t a s ha h
    rcases csvRow_inv h with ⟨_, _, b, hb, _, _, hsearch⟩ | ⟨ha', _, _, _, _⟩
    · rw [hsearch, hb]
      cases b
      · rw [if_neg (by decide), if_neg (by simp)]
      · rw [if_pos rfl, if_pos rfl]
    · exact absurd ha' ha
  · intro line p0 p1 s hsp hp0 h
    rcases textLine_inv h with ⟨q0, q1, b, hsp', hb, _, _, hsearch⟩ | ⟨hnone, _, _, _⟩
    · rw [hsp] at hsp'
      simp only [Option.some.injEq, Prod.mk.injEq] at hsp'
      obtain ⟨rfl, rfl⟩ := hsp'
      rw [hsearch, hb]
      cases b
      · rw [if_neg (by decide), if_neg (by simp)]
      · rw [if_pos rfl, if_pos rfl]
    · rw [hsp] at hnone; cases hnone
  · intro line p0 p1 s hsp hp0 h
    rcases interactiveLine_inv h with ⟨q0, q1, b, hsp', hb, _, _, hsearch⟩ | ⟨hnone, _, _, _⟩
    · rw [hsp] at hsp'
      simp only [Option.some.injEq, Prod.mk.injEq] at hsp'
      obtain ⟨rfl, rfl⟩ := hsp'
      rw [hsearch, hb]
      cases b
      · rw [if_neg (by decide), if_neg (by simp)]
      · rw [if_pos rfl, if_pos rfl]
    · rw [hsp] at hnone; cases hnone

/-- Witness for C1 on the text line `"Pink Floyd - Comfortably Numb"`. -/
theorem C1_witness :
    (⟨"Pink Floyd".data, "Comfortably Numb".data,
      "Pink Floyd Comfortably Numb".data⟩ : Song).search =
      if should_add_artist (clean_artist (pyStrip "Pink Floyd".data))
          (clean_title (pyStrip "Comfortably Numb".data)) = some true
      then clean_artist (pyStrip "Pink Floyd".data) ++ ' ' ::
        clean_title (pyStrip "Comfortably Numb".data)
      else clean_title (pyStrip "Comfortably Numb".data) :=
  C1_search_assembly.2.1 "Pink Floyd - Comfortably Numb".data
    "Pink Floyd".data "Comfortably Numb".data _ rfl (by decide) rfl

/-- Counterexample to claim C2: the produced entry for the bare line
`"(Remix)"` has an empty `search`, and for `"ab - abab"` the cleaned artist
`"ab"` occurs twice inside `search = "abab"` (at offsets 0 and 2). -/
theorem C2_counterexample :
    textLine "(Remix)".data = .ok (some ⟨"Unknown Artist".data, [], []⟩) ∧
    textLine "ab - abab".data = .ok (some ⟨"ab".data, "abab".data, "abab".data⟩) ∧
    ("abab".data.drop 0).take 2 = "ab".data ∧ ("abab".data.drop 2).take 2 = "ab".data :=
  ⟨rfl, rfl, by decide, by decide⟩

/-- Claim C2 as amended: `search` is a deterministic function of the raw
inputs, and it is empty only when the cleaned title is empty; it may be
empty, and may contain the artist name twice, in the cases exhibited by the
counterexample. -/
theorem C2_search_properties :
    (∀ t a t' a', t = t' → a = a' → csvRow t a = csvRow t' a') ∧
    (∀ line line', line = line' → textLine line = textLine line') ∧
    (∀ t a s, csvRow t a = .ok (some s) → s.search = [] → s.title = []) ∧
    (∀ line s, textLine line = .ok (some s) → s.search = [] → s.title = []) ∧
    (∀ line s, interactiveLine line = .ok (some s) → s.search = [] → s.title = []) := by
  refine ⟨fun t a t' a' ht ha => by rw [ht, ha], fun l l' hl => by rw [hl], ?_, ?_, ?_⟩
  · intro t a s h hs
    rcases csvRow_inv h with ⟨_, _, b, _, _, htitle, hsearch⟩ | ⟨_, _, _, htitle, hsearch⟩
    · rw [hsearch] at hs
      rw [htitle]
      cases b
      · simpa using hs
      · rw [if_pos rfl] at hs
        exact absurd (List.append_eq_nil.mp hs).2 (List.cons_ne_nil _ _)
    · rw [htitle, ← hsearch]; exact hs
  · intro line s h hs
    rcases textLine_inv h with ⟨p0, p1, b, _, _, _, htitle, hsearch⟩ | ⟨_, _, htitle, hsearch⟩
    · rw [hsearch] at hs
      rw [htitle]
      cases b
      · simpa using hs
      · rw [if_pos rfl] at hs
        exact absurd (List.append_eq_nil.mp hs).2 (List.cons_ne_nil _ _)
    · rw [htitle, ← hsearch]; exact hs
  · intro line s h hs
    rcases interactiveLine_inv h with ⟨p0, p1, b, _, _, _, htitle, hsearch⟩ | ⟨_, _, htitle, hsearch⟩
    · rw [hsearch] at hs
      rw [htitle]
      cases b
      · simpa using hs
      · rw [if_pos rfl] at hs
        exact absurd (List.append_eq_nil.mp hs).2 (List.cons_ne_nil _ _)
    · rw [htitle, ← hsearch]; exact hs

/-- Witness for C2 on the bare line `"(Remix)"`. -/
theorem C2_witness : (⟨"Unknown Artist".data, [], []⟩ : Song).title = ([] : List Char) :=
  C2_search_properties.2.2.2.1 "(Remix)".data _ rfl rfl

/-- Counterexample to claim C8: the separator-free line
`"Bohemian Rhapsody"` produces an entry whose artist field is the sentinel
`"Unknown Artist"`, not the empty string. -/
theorem C8_counterexample :
    textLine "Bohemian Rhapsody".data =
      .ok (some ⟨"Unknown Artist".data, "Bohemian Rhapsody".data,
                 "Bohemian Rhapsody".data⟩) ∧
    "Unknown Artist".data ≠ ([] : List Char) :=
  ⟨rfl, by decide⟩

/-- Claim C8 as amended: a produced separator-free text line yields an
entry with artist `"Unknown Artist"` (the empty parsed artist replaced by
the sentinel), title = `clean_title` of the stripped line, and the same
value as search. -/
theorem C8_bare_line_entry (line : List Char) (s : Song)
    (h : textLine line = .ok (some s))
    (hsep : pySplitOnce " - ".data (pyStrip line) = none) :
    s = ⟨"Unknown Artist".data, clean_title (pyStrip line),
         clean_title (pyStrip line)⟩ := by
  obtain ⟨sa, st, ss⟩ := s
  rcases textLine_inv h with ⟨p0, p1, b, hsp', _, _, _, _⟩ | ⟨_, hart, htitle, hsearch⟩
  · rw [hsep] at hsp'; cases hsp'
  · simp only [Song.mk.injEq]
    exact ⟨hart.trans (by decide), htitle, hsearch⟩

/-- Witness for C8 on the line `"Bohemian Rhapsody"`. -/
theorem C8_witness :
    (⟨"Unknown Artist".data, "Bohemian Rhapsody".data,
      "Bohemian Rhapsody".data⟩ : Song) =
      ⟨"Unknown Artist".data, clean_title (pyStrip "Bohemian Rhapsody".data),
       clean_title (pyStrip "Bohemian Rhapsody".data)⟩ :=
  C8_bare_line_entry "Bohemian Rhapsody".data _ rfl rfl

/-- Counterexample to claim C5: on the non-empty, all-whitespace artist
`" "` with title `"x"`, the source raises `IndexError` (embedded `none`)
on `artist_lower.split()[0]` instead of returning `True`. -/
theorem C5_counterexample :
    should_add_artist [' '] ['x'] = none ∧ (none : Option Bool) ≠ some true :=
  ⟨by decide, by decide⟩

/-- `hasSub` agrees with the infix relation. -/
lemma hasSub_iff (pat : List Char) : ∀ l, hasSub pat l = true ↔ pat <:+: l := by
  intro l
  induction l with
  | nil => simp [hasSub, List.isEmpty_iff, List.infix_nil]
  | cons c cs ih =>
    simp only [hasSub, Bool.or_eq_true, List.isPrefixOf_iff_prefix, ih,
      List.infix_cons_iff]

/-- The head of `pySplit` is the spec's first whitespace-delimited word. -/
lemma pySplit_head : ∀ l : List Char, (pySplit l).head? = firstWordSpec l := by
  intro l
  induction l with
  | nil => rfl
  | cons c cs ih =>
    by_cases hc : isPySpace c
    · rw [show pySplit (c :: cs) = pySplit cs by simp [pySplit, hc], ih]
      simp [firstWordSpec, List.dropWhile_cons, hc]
    · cases cs with
      | nil => simp [pySplit, firstWordSpec, hc, List.dropWhile, List.takeWhile]
      | cons d ds =>
        by_cases hd : isPySpace d
        · simp [pySplit, firstWordSpec, hc, hd, List.dropWhile_cons, List.takeWhile_cons]
        · rw [show pySplit (c :: d :: ds) =
              (match pySplit (d :: ds) with
               | [] => [[c]]
               | w :: rest => (c :: w) :: rest) by simp [pySplit, hc, hd]]
          cases hps : pySplit (d :: ds) with
          | nil =>
            rw [hps] at ih
            simp [firstWordSpec, List.dropWhile_cons, hd] at ih
          | cons w rest =>
            rw [hps] at ih
            simp only [List.head?_cons]
            simp [firstWordSpec, List.dropWhile_cons, List.takeWhile_cons, hc, hd] at ih ⊢
            exact ih

/-- Claim C5 as amended: `should_add_artist` returns `False` exactly when
the artist is empty, is the sentinel, its lowercasing occurs in the
lowercased title, or its first whitespace-delimited word is longer than two
characters and occurs in the lowercased title; it raises (returns no
result) when the artist is non-empty, not the sentinel, not a substring of
the title, and has no first word (whitespace-only artist); in every other
case it returns `True`. The spec's three examples hold. -/
theorem C5_guard_characterization :
    (∀ a t,
      (should_add_artist a t = some false ↔
        a = [] ∨ a = "Unknown Artist".data ∨
        a.map pyToLower <:+: t.map pyToLower ∨
        (∃ w, firstWordSpec (a.map pyToLower) = some w ∧ 2 < w.length ∧
          w <:+: t.map pyToLower)) ∧
      (should_add_artist a t = none ↔
        (a ≠ [] ∧ a ≠ "Unknown Artist".data ∧
         ¬ a.map pyToLower <:+: t.map pyToLower ∧
         firstWordSpec (a.map pyToLower) = none)) ∧
      (should_add_artist a t = some true ↔
        (a ≠ [] ∧ a ≠ "Unknown Artist".data ∧
         ¬ a.map pyToLower <:+: t.map pyToLower ∧
         ∃ w, firstWordSpec (a.map pyToLower) = some w ∧
           ¬(2 < w.length ∧ w <:+: t.map pyToLower)))) ∧
    should_add_artist "Drake".data "One Dance by Drake".data = some false ∧
    should_add_artist "Drake".data "One Dance".data = some true ∧
    (∀ t', should_add_artist "Unknown Artist".data t' = some false) := by
  refine ⟨?_, by decide, by decide, fun t' => by simp [should_add_artist]⟩
  intro a t
  by_cases h1 : (a = [] || a = "Unknown Artist".data) = true
  · have hval : should_add_artist a t = some false := by
      simp only [should_add_artist]; rw [if_pos h1]
    rw [hval]
    simp only [Bool.or_eq_true, decide_eq_true_eq] at h1
    exact ⟨iff_of_true rfl (h1.elim Or.inl (Or.inr ∘ Or.inl)),
           iff_of_false (by simp) (fun h => h1.elim h.1 h.2.1),
           iff_of_false (by simp) (fun h => h1.elim h.1 h.2.1)⟩
  · have h1' := h1
    simp only [Bool.or_eq_true, decide_eq_true_eq, not_or] at h1'
    obtain ⟨ha, hua⟩ := h1'
    by_cases h2 : hasSub (a.map pyToLower) (t.map pyToLower) = true
    · have hval : should_add_artist a t = some false := by
        simp only [should_add_artist]; rw [if_neg h1, if_pos h2]
      rw [hval]
      have hinf := (hasSub_iff _ _).mp h2
      exact ⟨iff_of_true rfl (Or.inr (Or.inr (Or.inl hinf))),
             iff_of_false (by simp) (fun h => h.2.2.1 hinf),
             iff_of_false (by simp) (fun h => h.2.2.1 hinf)⟩
    · have hninf : ¬ a.map pyToLower <:+: t.map pyToLower :=
        fun hin => h2 ((hasSub_iff _ _).mpr hin)
      cases hps : pySplit (a.map pyToLower) with
      | nil =>
        have hval : should_add_artist a t = none := by
          simp only [should_add_artist]; rw [if_neg h1, if_neg h2, hps]
        rw [hval]
        have hfw : firstWordSpec (a.map pyToLower) = none := by
          rw [← pySplit_head, hps]; rfl
        refine ⟨iff_of_false (by simp) ?_, iff_of_true rfl ⟨ha, hua, hninf, hfw⟩,
                iff_of_false (by simp) ?_⟩
        · rintro (h | h | h | ⟨w, hw, _⟩)
          exacts [ha h, hua h, hninf h, by rw [hfw] at hw; cases hw]
        · rintro ⟨_, _, _, w, hw, _⟩
          rw [hfw] at hw; cases hw
      | cons w ws =>
        have hfw : firstWordSpec (a.map pyToLower) = some w := by
          rw [← pySplit_head, hps]; rfl
        by_cases h3 : (w.length > 2 && hasSub w (t.map pyToLower)) = true
        · have hval : should_add_artist a t = some false := by
            simp only [should_add_artist]; rw [if_neg h1, if_neg h2, hps]
            exact if_pos h3
          rw [hval]
          simp only [Bool.and_eq_true, decide_eq_true_eq] at h3
          obtain ⟨hlen, hsub⟩ := h3
          refine ⟨iff_of_true rfl
              (Or.inr (Or.inr (Or.inr ⟨w, hfw, hlen, (hasSub_iff _ _).mp hsub⟩))),
            iff_of_false (by simp) (fun h => by rw [hfw] at h; cases h.2.2.2),
            iff_of_false (by simp) ?_⟩
          rintro ⟨_, _, _, w', hw', hcon⟩
          rw [hfw] at hw'
          obtain rfl : w = w' := by injection hw'
          exact hcon ⟨hlen, (hasSub_iff _ _).mp hsub⟩
        · have hval : should_add_artist a t = some true := by
            simp only [should_add_artist]; rw [if_neg h1, if_neg h2, hps]
            exact if_neg h3
          rw [hval]
          have h3' : ¬(2 < w.length ∧ w <:+: t.map pyToLower) := by
            intro hcc
            exact h3 (by
              simp only [Bool.and_eq_true, decide_eq_true_eq]
              exact ⟨hcc.1, (hasSub_iff _ _).mpr hcc.2⟩)
          refine ⟨iff_of_false (by simp) ?_,
            iff_of_false (by simp) (fun h => by rw [hfw] at h; cases h.2.2.2),
            iff_of_true rfl ⟨ha, hua, hninf, w, hfw, h3'⟩⟩
          rintro (h | h | h | ⟨w', hw', hl', hi'⟩)
          · exact ha h
          · exact hua h
          · exact hninf h
          · rw [hfw] at hw'
            obtain rfl : w = w' := by injection hw'
            exact h3' ⟨hl', hi'⟩

lemma reSubF_eq_self (m : List Char → Option Nat) :
    ∀ (f : Nat) (l : List Char), (∀ t, t <:+ l → m t = none) → reSubF m f l = l := by
  intro f
  induction f with
  | zero => intro l _; rfl
  | succ f ih =>
    intro l hm
    cases l with
    | nil => rfl
    | cons c cs =>
      rw [reSubF, hm (c :: cs) (List.suffix_refl _)]
      rw [ih cs (fun t ht => hm t (ht.trans (List.suffix_cons c cs)))]

lemma reSub_eq_self_of_trigger (m : List Char → Option Nat) (trig : Char)
    (hnil : m [] = none) (hcons : ∀ c rest, c ≠ trig → m (c :: rest) = none) :
    ∀ l, trig ∉ l → reSub m l = l := by
  intro l hl
  refine reSubF_eq_self m l.length l ?_
  intro t ht
  cases t with
  | nil => exact hnil
  | cons c cs =>
    refine hcons c cs (fun hc => hl ?_)
    exact ht.subset (hc ▸ List.mem_cons_self c cs)

lemma mem_subSpaces : ∀ (l : List Char) (x : Char), x ∈ subSpaces l → x = ' ' ∨ x ∈ l := by
  intro l
  induction l with
  | nil => intro x hx; cases hx
  | cons c cs ih =>
    intro x hx
    by_cases hc : isPySpace c
    · cases cs with
      | nil =>
        simp only [subSpaces, hc, if_true] at hx
        simp only [List.mem_singleton] at hx
        exact Or.inl hx
      | cons d ds =>
        by_cases hd : isPySpace d
        · rw [show subSpaces (c :: d :: ds) = subSpaces (d :: ds) by
            simp [subSpaces, hc, hd]] at hx
          rcases ih x hx with h | h
          · exact Or.inl h
          · exact Or.inr (List.mem_cons_of_mem c h)
        · rw [show subSpaces (c :: d :: ds) = ' ' :: subSpaces (d :: ds) by
            simp [subSpaces, hc, hd]] at hx
          rcases List.mem_cons.mp hx with hx | hx
          · exact Or.inl hx
          · rcases ih x hx with h | h
            · exact Or.inl h
            · exact Or.inr (List.mem_cons_of_mem c h)
    · rw [show subSpaces (c :: cs) = c :: subSpaces cs by simp [subSpaces, hc]] at hx
      rcases List.mem_cons.mp hx with hx | hx
      · exact Or.inr (hx ▸ List.mem_cons_self c cs)
      · rcases ih x hx with h | h
        · exact Or.inl h
        · exact Or.inr (List.mem_cons_of_mem c h)

lemma ws_mem_subSpaces : ∀ (l : List Char) (x : Char),
    x ∈ subSpaces l → isPySpace x = true → x = ' ' := by
  intro l
  induction l with
  | nil => intro x hx; cases hx
  | cons c cs ih =>
    intro x hx hws
    by_cases hc : isPySpace c
    · cases cs with
      | nil =>
        simp only [subSpaces, hc, if_true, List.mem_singleton] at hx
        exact hx
      | cons d ds =>
        by_cases hd : isPySpace d
        · rw [show subSpaces (c :: d :: ds) = subSpaces (d :: ds) by
            simp [subSpaces, hc, hd]] at hx
          exact ih x hx hws
        · rw [show subSpaces (c :: d :: ds) = ' ' :: subSpaces (d :: ds) by
            simp [subSpaces, hc, hd]] at hx
          rcases List.mem_cons.mp hx with hx | hx
          · exact hx
          · exact ih x hx hws
    · rw [show subSpaces (c :: cs) = c :: subSpaces cs by simp [subSpaces, hc]] at hx
      rcases List.mem_cons.mp hx with hx | hx
      · exact absurd (hx ▸ hws) hc
      · exact ih x hx hws

lemma subSpaces_head? : ∀ (c : Char) (cs : List Char),
    (subSpaces (c :: cs)).head? = some (if isPySpace c then ' ' else c) := by
  intro c cs
  induction cs generalizing c with
  | nil => by_cases hc : isPySpace c <;> simp [subSpaces, hc]
  | cons d ds ih =>
    by_cases hc : isPySpace c
    · by_cases hd : isPySpace d
      · rw [show subSpaces (c :: d :: ds) = subSpaces (d :: ds) by simp [subSpaces, hc, hd]]
        rw [ih d]
        simp [hc, hd]
      · rw [show subSpaces (c :: d :: ds) = ' ' :: subSpaces (d :: ds) by
          simp [subSpaces, hc, hd]]
        simp [hc]
    · rw [show subSpaces (c :: d :: ds) = c :: subSpaces (d :: ds) by simp [subSpaces, hc]]
      simp [hc]

lemma chain_subSpaces :
    ∀ l : List Char, List.Chain'
      (fun x y => ¬(isPySpace x = true ∧ isPySpace y = true)) (subSpaces l) := by
  intro l
  induction l with
  | nil => simp [subSpaces]
  | cons c cs ih =>
    by_cases hc : isPySpace c
    · cases cs with
      | nil => simp [subSpaces, hc]
      | cons d ds =>
        by_cases hd : isPySpace d
        · rw [show subSpaces (c :: d :: ds) = subSpaces (d :: ds) by simp [subSpaces, hc, hd]]
          exact ih
        · rw [show subSpaces (c :: d :: ds) = ' ' :: subSpaces (d :: ds) by
            simp [subSpaces, hc, hd]]
          rw [List.chain'_cons']
          refine ⟨?_, ih⟩
          intro b hb
          rw [subSpaces_head? d ds, if_neg hd] at hb
          simp only [Option.mem_def, Option.some.injEq] at hb
          subst hb
          exact fun hp => hd hp.2
    · rw [show subSpaces (c :: cs) = c :: subSpaces cs by simp [subSpaces, hc]]
      rw [List.chain'_cons']
      refine ⟨?_, ih⟩
      intro b _
      exact fun hp => hc hp.1

lemma head?_dropWhile (p : Char → Bool) :
    ∀ (l : List Char) (c : Char), (l.dropWhile p).head? = some c → p c = false := by
  intro l
  induction l with
  | nil => intro c h; cases h
  | cons a as ih =>
    intro c h
    rw [List.dropWhile_cons] at h
    by_cases ha : p a
    · rw [if_pos ha] at h
      exact ih c h
    · rw [if_neg ha] at h
      simp only [List.head?_cons, Option.some.injEq] at h
      subst h
      simpa using ha

lemma mem_pyStrip : ∀ (l : List Char) (x : Char), x ∈ pyStrip l → x ∈ l := by
  intro l x hx
  simp only [pyStrip] at hx
  rw [List.mem_reverse] at hx
  have hx2 := (List.dropWhile_suffix isPySpace).sublist.subset hx
  rw [List.mem_reverse] at hx2
  exact (List.dropWhile_suffix isPySpace).sublist.subset hx2

lemma chain'_dropWhile {R : Char → Char → Prop} (p : Char → Bool) {l : List Char}
    (h : List.Chain' R l) : List.Chain' R (l.dropWhile p) := by
  have hsuf : l.dropWhile p <:+ l := List.dropWhile_suffix p
  obtain ⟨pre, hpre⟩ := hsuf
  rw [← hpre] at h
  exact (List.chain'_append.mp h).2.1

lemma chain'_pyStrip {R : Char → Char → Prop} (sym : ∀ a b, R a b → R b a)
    {l : List Char} (h : List.Chain' R l) : List.Chain' R (pyStrip l) := by
  have flipImp : ∀ {t : List Char}, List.Chain' R t → List.Chain' (flip R) t :=
    fun ht => List.Chain'.imp (fun a b => sym a b) ht
  have h1 : List.Chain' R (l.dropWhile isPySpace) := chain'_dropWhile _ h
  have h2 : List.Chain' R (l.dropWhile isPySpace).reverse :=
    List.chain'_reverse.mpr (flipImp h1)
  have h3 : List.Chain' R ((l.dropWhile isPySpace).reverse.dropWhile isPySpace) :=
    chain'_dropWhile _ h2
  exact List.chain'_reverse.mpr (flipImp h3)

lemma suffix_getLast? {t l : List Char} (h : t <:+ l) (hne : t ≠ []) :
    t.getLast? = l.getLast? := by
  obtain ⟨pre, rfl⟩ := h
  exact (List.getLast?_append_of_ne_nil pre hne).symm

lemma pyStrip_head_not_ws {l : List Char} {c : Char}
    (h : (pyStrip l).head? = some c) : isPySpace c = false := by
  simp only [pyStrip] at h
  rw [List.head?_reverse] at h
  set Z := ((l.dropWhile isPySpace).reverse.dropWhile isPySpace) with hZ
  have hne : Z ≠ [] := by
    intro he
    rw [he] at h
    cases h
  rw [suffix_getLast? (List.dropWhile_suffix isPySpace) hne] at h
  rw [List.getLast?_reverse] at h
  exact head?_dropWhile isPySpace _ c h

lemma pyStrip_last_not_ws {l : List Char} {c : Char}
    (h : (pyStrip l).getLast? = some c) : isPySpace c = false := by
  simp only [pyStrip] at h
  rw [List.getLast?_reverse] at h
  exact head?_dropWhile isPySpace _ c h

lemma subSpaces_eq_self :
    ∀ l : List Char,
      List.Chain' (fun x y => ¬(isPySpace x = true ∧ isPySpace y = true)) l →
      (∀ x ∈ l, isPySpace x = true → x = ' ') →
      (∀ c, l.getLast? = some c → isPySpace c = false) →
      subSpaces l = l := by
  intro l
  induction l with
  | nil => intro _ _ _; rfl
  | cons c cs ih =>
    intro hchain hmem hlast
    by_cases hc : isPySpace c
    · have hcsp : c = ' ' := hmem c (List.mem_cons_self c cs) hc
      cases cs with
      | nil => exact absurd (hlast c rfl) (by simpa using hc)
      | cons d ds =>
        have hrel : ¬(isPySpace c = true ∧ isPySpace d = true) :=
          (List.chain'_cons.mp hchain).1
        have hd : ¬ isPySpace d = true := fun hd => hrel ⟨hc, hd⟩
        rw [show subSpaces (c :: d :: ds) = ' ' :: subSpaces (d :: ds) by
          simp [subSpaces, hc, hd]]
        rw [ih (List.chain'_cons.mp hchain).2
          (fun x hx => hmem x (List.mem_cons_of_mem c hx))
          (fun e he => hlast e (by rw [List.getLast?_cons_cons]; exact he))]
        rw [hcsp]
    · rw [show subSpaces (c :: cs) = c :: subSpaces cs by simp [subSpaces, hc]]
      cases cs with
      | nil => rfl
      | cons d ds =>
        rw [ih (List.chain'_cons.mp hchain).2
          (fun x hx => hmem x (List.mem_cons_of_mem c hx))
          (fun e he => hlast e (by rw [List.getLast?_cons_cons]; exact he))]

lemma dropWhile_eq_self (p : Char → Bool) :
    ∀ l : List Char, (∀ c, l.head? = some c → p c = false) → l.dropWhile p = l := by
  intro l hl
  cases l with
  | nil => rfl
  | cons a as =>
    rw [List.dropWhile_cons, if_neg (by simp [hl a rfl])]

lemma pyStrip_eq_self (l : List Char)
    (hhead : ∀ c, l.head? = some c → isPySpace c = false)
    (hlast : ∀ c, l.getLast? = some c → isPySpace c = false) : pyStrip l = l := by
  simp only [pyStrip]
  rw [dropWhile_eq_self isPySpace l hhead]
  rw [dropWhile_eq_self isPySpace l.reverse
    (fun c hc => hlast c (by rwa [List.head?_reverse] at hc))]
  exact List.reverse_reverse l

lemma stripCollapse_idem (l : List Char) :
    pyStrip (subSpaces (pyStrip (subSpaces l))) = pyStrip (subSpaces l) := by
  have hchain := chain_subSpaces l
  have hchainX := chain'_pyStrip (fun a b hab hp => hab ⟨hp.2, hp.1⟩) hchain
  have hmemX : ∀ x ∈ pyStrip (subSpaces l), isPySpace x = true → x = ' ' :=
    fun x hx => ws_mem_subSpaces l x (mem_pyStrip _ x hx)
  rw [subSpaces_eq_self _ hchainX hmemX (fun c hc => pyStrip_last_not_ws hc)]
  exact pyStrip_eq_self _ (fun c hc => pyStrip_head_not_ws hc)
    (fun c hc => pyStrip_last_not_ws hc)

lemma clean_title_of_plain (l : List Char) (hp : '(' ∉ l) (hb : '[' ∉ l) :
    clean_title l = pyStrip (subSpaces l) := by
  have r1 : reSub (matchParen "feat.".data) l = l :=
    reSub_eq_self_of_trigger _ '(' rfl (fun c rest hc => by simp [matchParen, hc]) l hp
  have r2 : reSub (matchParen "ft.".data) l = l :=
    reSub_eq_self_of_trigger _ '(' rfl (fun c rest hc => by simp [matchParen, hc]) l hp
  have r3 : reSub (matchParen "with".data) l = l :=
    reSub_eq_self_of_trigger _ '(' rfl (fun c rest hc => by simp [matchParen, hc]) l hp
  have r4 : reSub (matchKw "remix".data) l = l :=
    reSub_eq_self_of_trigger _ '(' rfl (fun c rest hc => by simp [matchKw, hc]) l hp
  have r5 : reSub (matchKw "version".data) l = l :=
    reSub_eq_self_of_trigger _ '(' rfl (fun c rest hc => by simp [matchKw, hc]) l hp
  have r6 : reSub (matchKw "edit".data) l = l :=
    reSub_eq_self_of_trigger _ '(' rfl (fun c rest hc => by simp [matchKw, hc]) l hp
  have r7 : reSub matchBracket l = l :=
    reSub_eq_self_of_trigger _ '[' rfl (fun c rest hc => by simp [matchBracket, hc]) l hb
  simp only [clean_title]
  rw [r1, r2, r3, r4, r5, r6, r7]

/-- Counterexample to claim C4: bracket removal inside `"(fe[z]at. x)"`
manufactures the string `"(feat. x)"`, which a second pass deletes wholly:
`clean_title` is not idempotent. -/
theorem C4_counterexample :
    clean_title "(fe[z]at. x)".data = "(feat. x)".data ∧
    clean_title (clean_title "(fe[z]at. x)".data) = [] ∧
    "(feat. x)".data ≠ ([] : List Char) :=
  ⟨by decide, by decide, by decide⟩

/-- Claim C4 as amended: `clean_title` is idempotent on every string free
of `'('` and `'['` (on such strings one pass only collapses and trims
whitespace, and that normalization is idempotent); in general a second
pass can remove more, as the counterexample shows. -/
theorem C4_idempotent_on_plain (l : List Char) (hp : '(' ∉ l) (hb : '[' ∉ l) :
    clean_title (clean_title l) = clean_title l := by
  rw [clean_title_of_plain l hp hb]
  have hp' : '(' ∉ pyStrip (subSpaces l) := by
    intro hx
    rcases mem_subSpaces l '(' (mem_pyStrip _ _ hx) with h | h
    · cases h
    · exact hp h
  have hb' : '[' ∉ pyStrip (subSpaces l) := by
    intro hx
    rcases mem_subSpaces l '[' (mem_pyStrip _ _ hx) with h | h
    · cases h
    · exact hb h
  rw [clean_title_of_plain _ hp' hb']
  exact stripCollapse_idem l

/-- Witness for the amended C4 on `"hello  world"`. -/
theorem C4_witness :
    clean_title (clean_title "hello  world".data) = clean_title "hello  world".data :=
  C4_idempotent_on_plain "hello  world".data (by decide) (by decide)

lemma firstMatch_some (m : List Char → Option Nat) :
    ∀ (l : List Char) (i n : Nat), firstMatch m l = some (i, n) → m (l.drop i) = some n := by
  intro l
  induction l with
  | nil => intro i n h; cases h
  | cons c cs ih =>
    intro i n h
    rw [firstMatch] at h
    cases hmv : m (c :: cs) with
    | some n' =>
      rw [hmv] at h
      simp only [Option.some.injEq, Prod.mk.injEq] at h
      obtain ⟨rfl, rfl⟩ := h
      simpa using hmv
    | none =>
      rw [hmv] at h
      simp only [Option.map_eq_some'] at h
      obtain ⟨⟨i', n'⟩, hfm, hpr⟩ := h
      simp only [Prod.mk.injEq] at hpr
      obtain ⟨rfl, rfl⟩ := hpr
      simpa using ih i' n' hfm

lemma drop_length_le (k : Nat) (cs : List Char) : (cs.drop k).length ≤ cs.length := by
  rw [List.length_drop]
  omega

lemma reSubF_fuel (m : List Char → Option Nat) :
    ∀ (f₁ f₂ : Nat) (l : List Char), l.length ≤ f₁ → l.length ≤ f₂ →
      reSubF m f₁ l = reSubF m f₂ l := by
  intro f₁
  induction f₁ with
  | zero =>
    intro f₂ l h1 _
    obtain rfl : l = [] := List.eq_nil_of_length_eq_zero (Nat.le_zero.mp h1)
    cases f₂ <;> rfl
  | succ f ih =>
    intro f₂ l h1 h2
    cases l with
    | nil => cases f₂ <;> rfl
    | cons c cs =>
      cases f₂ with
      | zero => exact absurd h2 (by simp)
      | succ f₂' =>
        simp only [reSubF]
        cases hmv : m (c :: cs) with
        | none =>
          rw [ih f₂' cs (by simpa using h1) (by simpa using h2)]
        | some n =>
          cases n with
          | zero => rw [ih f₂' cs (by simpa using h1) (by simpa using h2)]
          | succ k =>
            refine ih f₂' (cs.drop k) ?_ ?_
            · exact le_trans (drop_length_le k cs) (by simpa using h1)
            · exact le_trans (drop_length_le k cs) (by simpa using h2)

lemma reSub_cons_none {m : List Char → Option Nat} {c : Char} {cs : List Char}
    (h : m (c :: cs) = none) : reSub m (c :: cs) = c :: reSub m cs := by
  rw [reSub, List.length_cons, reSubF, h]
  rfl

lemma reSub_cons_succ {m : List Char → Option Nat} {c : Char} {cs : List Char} {k : Nat}
    (h : m (c :: cs) = some (k + 1)) : reSub m (c :: cs) = reSub m (cs.drop k) := by
  rw [reSub, List.length_cons, reSubF, h]
  exact reSubF_fuel m cs.length (cs.drop k).length (cs.drop k) (drop_length_le k cs) le_rfl

lemma firstMatch_nil (m : List Char → Option Nat) : firstMatch m [] = none := rfl

lemma spliceAllF_succ_none {m : List Char → Option Nat} {l : List Char} {f : Nat}
    (h : firstMatch m l = none) : spliceAllF m (f + 1) l = l := by
  rw [spliceAllF, h]

lemma spliceAllF_succ_some {m : List Char → Option Nat} {l : List Char} {f i n : Nat}
    (h : firstMatch m l = some (i, n)) :
    spliceAllF m (f + 1) l = l.take i ++ spliceAllF m f (l.drop (i + n)) := by
  rw [spliceAllF, h]

lemma spliceAllF_fuel (m : List Char → Option Nat)
    (hm : ∀ t n, m t = some n → 1 ≤ n) :
    ∀ (f₁ f₂ : Nat) (l : List Char), l.length ≤ f₁ → l.length ≤ f₂ →
      spliceAllF m f₁ l = spliceAllF m f₂ l := by
  intro f₁
  induction f₁ with
  | zero =>
    intro f₂ l h1 _
    obtain rfl : l = [] := List.eq_nil_of_length_eq_zero (Nat.le_zero.mp h1)
    cases f₂ with
    | zero => rfl
    | succ f₂' =>
      rw [spliceAllF_succ_none (firstMatch_nil m)]
      rfl
  | succ f ih =>
    intro f₂ l h1 h2
    cases f₂ with
    | zero =>
      obtain rfl : l = [] := List.eq_nil_of_length_eq_zero (Nat.le_zero.mp h2)
      rw [spliceAllF_succ_none (firstMatch_nil m)]
      rfl
    | succ f₂' =>
      cases hfm : firstMatch m l with
      | none => rw [spliceAllF_succ_none hfm, spliceAllF_succ_none hfm]
      | some p =>
        obtain ⟨i, n⟩ := p
        have hpos : 1 ≤ n := hm _ _ (firstMatch_some m l i n hfm)
        have hlen : 1 ≤ l.length := by
          cases l with
          | nil => cases hfm
          | cons a as => simp
        rw [spliceAllF_succ_some hfm, spliceAllF_succ_some hfm]
        rw [ih f₂' (l.drop (i + n)) (by rw [List.length_drop]; omega)
          (by rw [List.length_drop]; omega)]

lemma spliceAll_none {m : List Char → Option Nat} {l : List Char}
    (h : firstMatch m l = none) : spliceAll m l = l := by
  rw [spliceAll]
  cases hl : l.length with
  | zero =>
    obtain rfl : l = [] := List.eq_nil_of_length_eq_zero hl
    rfl
  | succ L => rw [spliceAllF_succ_none h]

lemma spliceAll_some {m : List Char → Option Nat} {l : List Char} {i n : Nat}
    (hm : ∀ t n, m t = some n → 1 ≤ n) (h : firstMatch m l = some (i, n)) :
    spliceAll m l = l.take i ++ spliceAll m (l.drop (i + n)) := by
  rw [spliceAll]
  cases hl : l.length with
  | zero =>
    obtain rfl : l = [] := List.eq_nil_of_length_eq_zero hl
    cases h
  | succ L =>
    rw [spliceAllF_succ_some h]
    have hpos : 1 ≤ n := hm _ _ (firstMatch_some m l i n h)
    rw [spliceAllF_fuel m hm L (l.drop (i + n)).length (l.drop (i + n))
      (by rw [List.length_drop]; omega) le_rfl]
    rfl

lemma reSub_eq_spliceAll (m : List Char → Option Nat)
    (hm : ∀ t n, m t = some n → 1 ≤ n) : ∀ l : List Char, reSub m l = spliceAll m l := by
  suffices h : ∀ (N : Nat) (l : List Char), l.length ≤ N → reSub m l = spliceAll m l by
    exact fun l => h l.length l le_rfl
  intro N
  induction N with
  | zero =>
    intro l hl
    obtain rfl : l = [] := List.eq_nil_of_length_eq_zero (Nat.le_zero.mp hl)
    rfl
  | succ N ih =>
    intro l hl
    cases l with
    | nil => rfl
    | cons c cs =>
      cases hmv : m (c :: cs) with
      | some n =>
        cases n with
        | zero => exact absurd (hm _ _ hmv) (by omega)
        | succ k =>
          have hfm : firstMatch m (c :: cs) = some (0, k + 1) := by
            rw [firstMatch, hmv]
          rw [reSub_cons_succ hmv, spliceAll_some hm hfm]
          simp only [List.take_zero, List.nil_append, Nat.zero_add, List.drop_succ_cons]
          exact ih (cs.drop k) (le_trans (drop_length_le k cs) (by simpa using hl))
      | none =>
        have hfm : firstMatch m (c :: cs) = (firstMatch m cs).map
            (fun p => (p.1 + 1, p.2)) := by
          rw [firstMatch, hmv]
        rw [reSub_cons_none hmv]
        have hcs : reSub m cs = spliceAll m cs := ih cs (by simpa using hl)
        cases hfm2 : firstMatch m cs with
        | none =>
          rw [hfm2] at hfm
          rw [spliceAll_none (by simpa using hfm), hcs, spliceAll_none hfm2]
        | some p =>
          obtain ⟨i, n⟩ := p
          rw [hfm2] at hfm
          simp only [Option.map_some'] at hfm
          rw [spliceAll_some hm hfm, hcs, spliceAll_some hm hfm2]
          have harith : i + 1 + n = (i + n) + 1 := by omega
          rw [harith, List.drop_succ_cons, List.take_succ_cons, List.cons_append]

lemma ciStrip_eq : ∀ (pat l : List Char),
    ciStrip pat l =
      if (l.take pat.length).map pyToLower = pat then some (l.drop pat.length)
      else none := by
  intro pat
  induction pat with
  | nil => intro l; simp [ciStrip]
  | cons p ps ih =>
    intro l
    cases l with
    | nil => simp [ciStrip]
    | cons c cs =>
      rw [ciStrip]
      by_cases hc : pyToLower c = p
      · rw [if_pos hc, ih cs]
        simp only [List.length_cons, List.take_succ_cons, List.map_cons,
          List.drop_succ_cons]
        by_cases h2 : (cs.take ps.length).map pyToLower = ps
        · rw [if_pos h2, if_pos (by rw [hc, h2])]
        · rw [if_neg h2, if_neg (fun h => h2 (List.cons_eq_cons.mp h).2)]
      · rw [if_neg hc]
        simp only [List.length_cons, List.take_succ_cons, List.map_cons]
        rw [if_neg (fun h => hc (List.cons_eq_cons.mp h).1)]

lemma closeLen_eq_spec (tg : Char) :
    ∀ s : List Char, closeLen tg s = closeIdxSpec tg s := by
  intro s
  induction s with
  | nil => simp [closeLen, closeIdxSpec, List.findIdx?_nil]
  | cons c cs ih =>
    rw [closeLen, closeIdxSpec, List.findIdx?_cons]
    by_cases h1 : c = tg
    · rw [if_pos h1, if_pos (by simp [h1])]
      simp [h1]
    · by_cases h2 : c = '\n'
      · rw [if_neg h1, if_pos h2, if_pos (by simp [h2])]
        simp only [List.getElem?_cons_zero]
        rw [if_neg (by simp [h1])]
      · rw [if_neg h1, if_neg h2, if_neg (by simp [h1, h2])]
        rw [List.findIdx?_succ]
        rw [ih, closeIdxSpec]
        cases hfd : cs.findIdx? (fun x => x = tg || x = '\n') with
        | none => simp
        | some j =>
          simp only [Option.map_some']
          rw [List.getElem?_cons_succ]
          by_cases h3 : cs[j]? = some tg
          · rw [if_pos h3, if_pos h3]
            rfl
          · rw [if_neg h3, if_neg h3]
            rfl

lemma matchParen_eq_spec (pat : List Char) :
    ∀ l, matchParen pat l = matchParenSpec pat l := by
  intro l
  cases l with
  | nil => rfl
  | cons c rest =>
    rw [matchParen, matchParenSpec]
    by_cases hc : c = '('
    · rw [if_pos hc, ciStrip_eq]
      by_cases h2 : (rest.take pat.length).map pyToLower = pat
      · rw [if_pos h2, if_pos ⟨hc, h2⟩]
        exact congrArg (Option.map (fun k => 1 + pat.length + k))
          (closeLen_eq_spec ')' (rest.drop pat.length))
      · rw [if_neg h2, if_neg (fun hh => h2 hh.2)]
    · rw [if_neg hc, if_neg (fun hh => hc hh.1)]

lemma matchBracket_eq_spec : ∀ l, matchBracket l = matchBracketSpec l := by
  intro l
  cases l with
  | nil => rfl
  | cons c rest =>
    rw [matchBracket, matchBracketSpec]
    by_cases hc : c = '['
    · rw [if_pos hc, if_pos hc, closeLen_eq_spec ']']
    · rw [if_neg hc, if_neg hc]

lemma closeLen_pos {tg : Char} : ∀ {s : List Char} {k : Nat},
    closeLen tg s = some k → 1 ≤ k := by
  intro s
  induction s with
  | nil => intro k h; cases h
  | cons c cs ih =>
    intro k h
    rw [closeLen] at h
    by_cases h1 : c = tg
    · rw [if_pos h1] at h
      cases h
      omega
    · rw [if_neg h1] at h
      by_cases h2 : c = '\n'
      · rw [if_pos h2] at h; cases h
      · rw [if_neg h2] at h
        simp only [Option.map_eq_some'] at h
        obtain ⟨k', _, rfl⟩ := h
        omega

lemma matchParen_pos (pat : List Char) : ∀ t n, matchParen pat t = some n → 1 ≤ n := by
  intro t n h
  cases t with
  | nil => cases h
  | cons c rest =>
    rw [matchParen] at h
    by_cases hc : c = '('
    · rw [if_pos hc] at h
      cases hcs : ciStrip pat rest with
      | none => rw [hcs] at h; cases h
      | some rest2 =>
        rw [hcs] at h
        simp only [Option.map_eq_some'] at h
        obtain ⟨k, _, rfl⟩ := h
        omega
    · rw [if_neg hc] at h; cases h

lemma matchKw_pos (kw : List Char) : ∀ t n, matchKw kw t = some n → 1 ≤ n := by
  intro t n h
  cases t with
  | nil => cases h
  | cons c rest =>
    rw [matchKw] at h
    by_cases hc : c = '('
    · rw [if_pos hc] at h
      simp only [Option.map_eq_some'] at h
      obtain ⟨k, _, rfl⟩ := h
      omega
    · rw [if_neg hc] at h; cases h

lemma matchBracket_pos : ∀ t n, matchBracket t = some n → 1 ≤ n := by
  intro t n h
  cases t with
  | nil => cases h
  | cons c rest =>
    rw [matchBracket] at h
    by_cases hc : c = '['
    · rw [if_pos hc] at h
      simp only [Option.map_eq_some'] at h
      obtain ⟨k, _, rfl⟩ := h
      omega
    · rw [if_neg hc] at h; cases h

lemma closeLen_takeWhile (tg : Char) (htg : tg ≠ '\n') :
    ∀ s : List Char,
      closeLen tg (s.takeWhile (fun d => !(d = '\n'))) = closeLen tg s := by
  intro s
  induction s with
  | nil => rfl
  | cons c cs ih =>
    by_cases hc : c = '\n'
    · rw [show (c :: cs).takeWhile (fun d => !(d = '\n')) = [] by
        simp [List.takeWhile_cons, hc]]
      rw [closeLen, closeLen, if_neg (by rw [hc]; exact fun h => htg h.symm), if_pos hc]
    · rw [show (c :: cs).takeWhile (fun d => !(d = '\n'))
          = c :: cs.takeWhile (fun d => !(d = '\n')) by simp [List.takeWhile_cons, hc]]
      rw [closeLen, closeLen]
      by_cases h1 : c = tg
      · rw [if_pos h1, if_pos h1]
      · rw [if_neg h1, if_neg h1, if_neg hc, if_neg hc, ih]

lemma takeWhile_take_drop :
    ∀ (k : Nat) (s : List Char), (∀ x ∈ s.take k, x ≠ '\n') →
      (s.takeWhile (fun d => !(d = '\n'))).take k = s.take k ∧
      (s.takeWhile (fun d => !(d = '\n'))).drop k =
        (s.drop k).takeWhile (fun d => !(d = '\n')) := by
  intro k
  induction k with
  | zero => intro s _; simp
  | succ k ih =>
    intro s hs
    cases s with
    | nil => simp
    | cons c cs =>
      have hc : c ≠ '\n' := hs c (by simp)
      rw [show (c :: cs).takeWhile (fun d => !(d = '\n'))
          = c :: cs.takeWhile (fun d => !(d = '\n')) by simp [List.takeWhile_cons, hc]]
      obtain ⟨h1, h2⟩ := ih cs (fun x hx => hs x (by
        rw [List.take_succ_cons]
        exact List.mem_cons_of_mem c hx))
      refine ⟨?_, ?_⟩
      · rw [List.take_succ_cons, List.take_succ_cons, h1]
      · rw [List.drop_succ_cons, List.drop_succ_cons, h2]

lemma findKwClose_eq (kw : List Char) (hne : kw ≠ []) (hnl : '\n' ∉ kw) :
    ∀ s : List Char,
      findKwClose kw s =
        (firstMatch (kwCoreSpec kw) (s.takeWhile (fun d => !(d = '\n')))).map
          (fun p => p.1 + p.2) := by
  intro s
  induction s with
  | nil => rfl
  | cons c cs ih =>
    by_cases hc : c = '\n'
    · have hcs : ciStrip kw (c :: cs) = none := by
        rw [ciStrip_eq]
        cases kw with
        | nil => exact absurd rfl hne
        | cons k ks =>
          refine if_neg (fun h => ?_)
          rw [List.length_cons, List.take_succ_cons, List.map_cons] at h
          have hk := (List.cons_eq_cons.mp h).1
          rw [hc] at hk
          have hlk : pyToLower '\n' = '\n' := by decide
          rw [hlk] at hk
          exact hnl (hk ▸ List.mem_cons_self k ks)
      rw [findKwClose, hcs]
      rw [show (c :: cs).takeWhile (fun d => !(d = '\n')) = [] by
        simp [List.takeWhile_cons, hc]]
      simp [hc, firstMatch]
    · have hTW : (c :: cs).takeWhile (fun d => !(d = '\n'))
          = c :: cs.takeWhile (fun d => !(d = '\n')) := by
        simp [List.takeWhile_cons, hc]
      cases hcs : ciStrip kw (c :: cs) with
      | some rest2 =>
        have hcd := hcs
        rw [ciStrip_eq] at hcd
        by_cases hmap : ((c :: cs).take kw.length).map pyToLower = kw
        case neg => rw [if_neg hmap] at hcd; cases hcd
        rw [if_pos hmap] at hcd
        obtain rfl : rest2 = (c :: cs).drop kw.length := by
          injection hcd with h'
          exact h'.symm
        have hreg : ∀ x ∈ (c :: cs).take kw.length, x ≠ '\n' := by
          intro x hx hxe
          apply hnl
          have hmem : pyToLower x ∈ kw := hmap ▸ List.mem_map_of_mem pyToLower hx
          have hlk : pyToLower '\n' = '\n' := by decide
          rw [hxe, hlk] at hmem
          exact hmem
        obtain ⟨htake, hdrop⟩ := takeWhile_take_drop kw.length (c :: cs) hreg
        have hcore : kwCoreSpec kw ((c :: cs).takeWhile (fun d => !(d = '\n'))) =
            (closeIdxSpec ')'
              (((c :: cs).drop kw.length).takeWhile (fun d => !(d = '\n')))).map
              (fun k => kw.length + k) := by
          rw [kwCoreSpec, if_pos (by rw [htake]; exact hmap), hdrop]
        have hclose : closeIdxSpec ')'
            (((c :: cs).drop kw.length).takeWhile (fun d => !(d = '\n'))) =
            closeLen ')' ((c :: cs).drop kw.length) := by
          rw [← closeLen_eq_spec ')', closeLen_takeWhile ')' (by decide)]
        rw [hTW] at hcore
        rw [findKwClose, hcs, hTW, firstMatch, hcore, hclose]
        cases hcl : closeLen ')' ((c :: cs).drop kw.length) with
        | some k2 => simp only [hcl]; simp
        | none =>
          simp only [hcl]
          rw [if_neg hc, ih]
          cases firstMatch (kwCoreSpec kw) (cs.takeWhile (fun d => !(d = '\n'))) with
          | none => simp
          | some p => simp [Nat.add_right_comm]
      | none =>
        have hcd := hcs
        rw [ciStrip_eq] at hcd
        by_cases hmap : ((c :: cs).take kw.length).map pyToLower = kw
        case pos => rw [if_pos hmap] at hcd; cases hcd
        have hcore : kwCoreSpec kw ((c :: cs).takeWhile (fun d => !(d = '\n'))) = none := by
          rw [kwCoreSpec]
          refine if_neg (fun hmap2 => hmap ?_)
          have hlen2 : kw.length ≤ ((c :: cs).takeWhile (fun d => !(d = '\n'))).length := by
            have := congrArg List.length hmap2
            rw [List.length_map, List.length_take] at this
            omega
          have hpref : (c :: cs).takeWhile (fun d => !(d = '\n')) <+: c :: cs :=
            List.takeWhile_prefix _
          obtain ⟨t, ht⟩ := hpref
          have hre : List.take kw.length (c :: cs) =
              List.take kw.length ((c :: cs).takeWhile (fun d => !(d = '\n'))) := by
            conv_lhs => rw [← ht]
            exact List.take_append_of_le_length hlen2
          rw [hre]
          exact hmap2
        rw [findKwClose, hcs, if_neg hc, ih, hTW, firstMatch]
        rw [hTW] at hcore
        rw [hcore]
        cases firstMatch (kwCoreSpec kw) (cs.takeWhile (fun d => !(d = '\n'))) with
        | none => simp
        | some p => simp [Nat.add_right_comm]

lemma matchKw_eq_spec (kw : List Char) (hne : kw ≠ []) (hnl : '\n' ∉ kw) :
    ∀ l, matchKw kw l = matchKwSpec kw l := by
  intro l
  cases l with
  | nil => rfl
  | cons c rest =>
    rw [matchKw, matchKwSpec]
    by_cases hc : c = '('
    · rw [if_pos hc, if_pos hc, findKwClose_eq kw hne hnl]
      cases firstMatch (kwCoreSpec kw) (rest.takeWhile (fun d => !(d = '\n'))) with
      | none => rfl
      | some p => rfl
    · rw [if_neg hc, if_neg hc]

lemma collapseFold_nil : collapseFold [] = [] := rfl

lemma collapseFold_cons (c : Char) (cs : List Char) :
    collapseFold (c :: cs) =
      (if isPySpace c then
        (match collapseFold cs with
         | [] => [' ']
         | a :: t => if a = ' ' then a :: t else ' ' :: a :: t)
       else c :: collapseFold cs) := rfl

lemma collapseFold_cons_head :
    ∀ (cs : List Char) (c : Char), ∃ t,
      collapseFold (c :: cs) = (if isPySpace c then ' ' else c) :: t := by
  intro cs
  induction cs with
  | nil =>
    intro c
    by_cases hc : isPySpace c
    · exact ⟨[], by rw [collapseFold_cons, if_pos hc, collapseFold_nil, if_pos hc]⟩
    · exact ⟨[], by rw [collapseFold_cons, if_neg hc, collapseFold_nil, if_neg hc]⟩
  | cons d ds ih =>
    intro c
    obtain ⟨t, ht⟩ := ih d
    by_cases hc : isPySpace c
    · by_cases hd : isPySpace d
      · rw [if_pos hd] at ht
        refine ⟨t, ?_⟩
        rw [collapseFold_cons, if_pos hc, ht, if_pos hc]
        simp
      · rw [if_neg hd] at ht
        have hdsp : d ≠ ' ' := fun h => hd (by rw [h]; decide)
        refine ⟨d :: t, ?_⟩
        rw [collapseFold_cons, if_pos hc, ht, if_pos hc]
        simp [hdsp]
    · exact ⟨collapseFold (d :: ds), by rw [collapseFold_cons, if_neg hc, if_neg hc]⟩

lemma subSpaces_eq_collapseFold : ∀ l : List Char, subSpaces l = collapseFold l := by
  intro l
  induction l with
  | nil => rfl
  | cons c cs ih =>
    rw [collapseFold_cons]
    by_cases hc : isPySpace c
    · rw [if_pos hc]
      cases cs with
      | nil =>
        rw [collapseFold_nil]
        simp [subSpaces, hc]
      | cons d ds =>
        obtain ⟨t, ht⟩ := collapseFold_cons_head ds d
        by_cases hd : isPySpace d
        · rw [show subSpaces (c :: d :: ds) = subSpaces (d :: ds) by
            simp [subSpaces, hc, hd], ih]
          rw [if_pos hd] at ht
          rw [ht]
          simp
        · rw [show subSpaces (c :: d :: ds) = ' ' :: subSpaces (d :: ds) by
            simp [subSpaces, hc, hd], ih]
          rw [if_neg hd] at ht
          have hdsp : d ≠ ' ' := fun h => hd (by rw [h]; decide)
          rw [ht]
          simp [hdsp]
    · rw [if_neg hc, show subSpaces (c :: cs) = c :: subSpaces cs by
        simp [subSpaces, hc], ih]

lemma spliceAll_congr {m₁ m₂ : List Char → Option Nat} (h : ∀ t, m₁ t = m₂ t) :
    ∀ l, spliceAll m₁ l = spliceAll m₂ l := by
  have he : m₁ = m₂ := funext h
  intro l
  rw [he]

/-- Counterexample to claim C3: the bracketed segment in `"[a\nb]"`
contains a newline, so `\[.*?\]` does not match it; the claim's
"regardless of contents" fails, and the bracket survives cleaning. -/
theorem C3_counterexample :
    clean_title ['[', 'a', '\n', 'b', ']'] = "[a b]".data ∧
    '[' ∈ clean_title ['[', 'a', '\n', 'b', ']'] :=
  ⟨by decide, by decide⟩

/-- Claim C3 as amended: `clean_title` removes, for the seven patterns in
the listed order and leftmost-first within each pattern, every lazy match
whose consumed span contains no newline (`(feat./ft./with ...)` up to the
first close paren; `(...remix/version/edit...)` through the earliest
reachable keyword up to the first close paren after it; `[...]` up to the
first close bracket), then collapses whitespace runs to single spaces and
trims — stated as equality with the independently formulated
specification pipeline. -/
theorem C3_removal_pipeline : ∀ title, clean_title title = clean_title_spec title := by
  intro title
  have e1 : ∀ x, reSub (matchParen "feat.".data) x
      = spliceAll (matchParenSpec "feat.".data) x :=
    fun x => (reSub_eq_spliceAll _ (matchParen_pos _) x).trans
      (spliceAll_congr (matchParen_eq_spec _) x)
  have e2 : ∀ x, reSub (matchParen "ft.".data) x
      = spliceAll (matchParenSpec "ft.".data) x :=
    fun x => (reSub_eq_spliceAll _ (matchParen_pos _) x).trans
      (spliceAll_congr (matchParen_eq_spec _) x)
  have e3 : ∀ x, reSub (matchParen "with".data) x
      = spliceAll (matchParenSpec "with".data) x :=
    fun x => (reSub_eq_spliceAll _ (matchParen_pos _) x).trans
      (spliceAll_congr (matchParen_eq_spec _) x)
  have e4 : ∀ x, reSub (matchKw "remix".data) x
      = spliceAll (matchKwSpec "remix".data) x :=
    fun x => (reSub_eq_spliceAll _ (matchKw_pos _) x).trans
      (spliceAll_congr (matchKw_eq_spec _ (by decide) (by decide)) x)
  have e5 : ∀ x, reSub (matchKw "version".data) x
      = spliceAll (matchKwSpec "version".data) x :=
    fun x => (reSub_eq_spliceAll _ (matchKw_pos _) x).trans
      (spliceAll_congr (matchKw_eq_spec _ (by decide) (by decide)) x)
  have e6 : ∀ x, reSub (matchKw "edit".data) x
      = spliceAll (matchKwSpec "edit".data) x :=
    fun x => (reSub_eq_spliceAll _ (matchKw_pos _) x).trans
      (spliceAll_congr (matchKw_eq_spec _ (by decide) (by decide)) x)
  have e7 : ∀ x, reSub matchBracket x = spliceAll matchBracketSpec x :=
    fun x => (reSub_eq_spliceAll _ matchBracket_pos x).trans
      (spliceAll_congr matchBracket_eq_spec x)
  simp only [clean_title, clean_title_spec]
  rw [e1, e2, e3, e4, e5, e6, e7, subSpaces_eq_collapseFold]
